import Mathlib

/-!
Verification of the static-file server in `src/main.py`.

The program is a Flask application with two routes:

  app.secret_key = os.environ.get("SESSION_SECRET", "income-tax-calculator-secret-key")

  @app.route('/')            → index():       send_from_directory('.', 'index.html')
  @app.route('/<path:path>') → serve_file(p): send_from_directory('.', p)

Its observable behaviour is that of the library functions it delegates to:
Werkzeug URL routing, `werkzeug.utils.safe_join` (built on `posixpath.normpath`),
`flask.send_from_directory` and `werkzeug.utils.send_file`.  Those functions are
embedded here faithfully, at the granularity of `'/'`-separated path segments:
a Python path string `s` is represented by the list `s.split('/')`
(`String.splitOn "/"`), a bijective encoding, so every string operation of the
sources is mirrored segment-wise.  The filesystem is an explicit map from
absolute segment paths to entries, and every filesystem access of a handler is
recorded in an effect trace.
-/

namespace StaticApp

/-- A path segment is clean when it is a real name: not empty, not `.`, not `..`. -/
def cleanSeg (c : String) : Bool :=
  !(c = "" || c = "." || c = "..")

/-- All segments of the list are clean. -/
def cleanSegs (g : List String) : Bool :=
  g.all cleanSeg

/-- Propositional form of `cleanSegs`, used by the proofs. -/
def CleanP (g : List String) : Prop :=
  ∀ c ∈ g, c ≠ "" ∧ c ≠ "." ∧ c ≠ ".."

/-- Segment-level `os.path.isabs` for POSIX: the string starts with `'/'`,
i.e. its split has a leading `""` segment followed by at least one more. -/
def isabsSegs (p : List String) : Bool :=
  p.head? = some "" && 2 ≤ p.length

/-- Segment-level `path.startswith('//')`. -/
def startsTwoSlash (p : List String) : Bool :=
  p.take 2 = ["", ""] && 3 ≤ p.length

/-- Segment-level `path.startswith('///')`. -/
def startsThreeSlash (p : List String) : Bool :=
  p.take 3 = ["", "", ""] && 4 ≤ p.length

/-- Number of initial slashes kept by `posixpath.normpath`: 1 when the path is
absolute, upgraded to 2 exactly when it starts with `//` but not `///`. -/
def initialSlashCount (p : List String) : Nat :=
  if isabsSegs p then
    if startsTwoSlash p && !startsThreeSlash p then 2 else 1
  else 0

/-- One step of the component loop of `posixpath.normpath`: skip `''` and `.`;
append a component unless it is `..`; on `..`, pop the accumulator, except that
a `..` is kept when the path is relative and the accumulator is empty, or when
the accumulator already ends in `..`. -/
def normStep (initialSlashes : Bool) (newComps : List String) (comp : String) :
    List String :=
  if comp = "" ∨ comp = "." then newComps
  else if comp ≠ ".." ∨ (¬ initialSlashes ∧ newComps = []) ∨
      (newComps ≠ [] ∧ newComps.getLast? = some "..") then
    newComps ++ [comp]
  else if newComps ≠ [] then newComps.dropLast
  else newComps

/-- The component loop of `posixpath.normpath`, as a fold over the split path. -/
def normComps (initialSlashes : Bool) (comps : List String) : List String :=
  comps.foldl (normStep initialSlashes) []

/-- Segment-level `posixpath.normpath`.  `normpath('')` is `'.'`; otherwise the
components are normalised and the preserved initial slashes are re-attached
(a string of `k` slashes and no components splits into `k+1` empty segments),
and an empty relative result becomes `'.'`. -/
def normpathSegs (p : List String) : List String :=
  if p = [""] then ["."]
  else
    let n := initialSlashCount p
    let out := normComps (decide (0 < n)) p
    if out = [] then (if n = 0 then ["."] else List.replicate (n + 1) "")
    else List.replicate n "" ++ out

/-- Segment-level `posixpath.join` for two arguments: an absolute second path
wins; a first path that is empty or ends in a slash is concatenated directly;
otherwise a separator is inserted (which at segment level is plain append). -/
def posixJoinSegs (a b : List String) : List String :=
  if isabsSegs b then b
  else if a = [""] ∨ a.getLast? = some "" then a.dropLast ++ b
  else a ++ b

/-- Embedding of `werkzeug.utils.safe_join(directory, filename)` for a single
filename.  An empty directory defaults to `'.'`; a non-empty filename is passed
through `posixpath.normpath`; the result is rejected (`None`) when it is
absolute, equals `..`, or starts with `../` (on POSIX `_os_alt_seps` is empty,
so no alternative-separator check applies); otherwise the two parts are joined.
At segment level, a `'/'`-free segment list equals `".."` or starts with
`"../"` exactly when its first segment is `".."`. -/
def safe_join (directory : List String) (filename : List String) :
    Option (List String) :=
  let dir := if directory = [""] then ["."] else directory
  let fn := if filename ≠ [""] then normpathSegs filename else filename
  if isabsSegs fn ∨ fn = [".."] ∨ (fn.head? = some ".." ∧ 2 ≤ fn.length) then
    none
  else
    some (posixJoinSegs dir fn)

/-- Lexical resolution of a relative path against an absolute directory, as the
operating system performs it for a process whose working directory is `cwd`
(no symbolic links in the model): empty and `.` segments are skipped, `..`
moves up one directory (staying at the filesystem root when already there),
and a clean segment descends. -/
def osResolve : List String → List String → List String
  | cwd, [] => cwd
  | cwd, c :: cs =>
    if c = "" ∨ c = "." then osResolve cwd cs
    else if c = ".." then osResolve cwd.dropLast cs
    else osResolve (cwd ++ [c]) cs

/-- A filesystem entry: a regular file with contents and a readability flag,
a directory, or nothing. -/
inductive Entry where
  | file (content : List Nat) (readable : Bool)
  | dir
  | absent
deriving DecidableEq, Repr

/-- The filesystem: a map from absolute segment paths to entries. -/
structure FS where
  entry : List String → Entry

/-- Whether an entry is a regular file (`os.path.isfile`). -/
def isRegularFile : Entry → Bool
  | .file _ _ => true
  | .dir => false
  | .absent => false

/-- A filesystem effect performed while handling a request: a metadata lookup
(`os.path.isfile`), a content read (`open`/`read`), or a write.  The write
constructor exists so that the absence of writes is a provable property of the
handlers rather than a property of the effect language. -/
inductive Eff where
  | statE (p : List String)
  | readE (p : List String)
  | writeE (p : List String)
deriving DecidableEq, Repr

/-- The path an effect touches. -/
def Eff.path : Eff → List String
  | .statE p => p
  | .readE p => p
  | .writeE p => p

/-- Whether an effect is a write. -/
def Eff.isWrite : Eff → Bool
  | .writeE _ => true
  | _ => false

/-- An HTTP response: a 200 with a body and a content type, or an error status
(404 NotFound, 405 MethodNotAllowed, 308 merge-slash redirect, 500 internal
error) whose body is the platform default error page, not file contents. -/
inductive Response where
  | ok (body : List Nat) (contentType : String)
  | error (status : Nat)
deriving DecidableEq, Repr

/-- The numeric status of a response. -/
def Response.status : Response → Nat
  | .ok _ _ => 200
  | .error s => s

/-- Segment-level `os.path.basename`: the part after the last `'/'`. -/
def basenameSegs (p : List String) : String :=
  p.getLast?.getD ""

/-- The extension (with its dot) produced by `posixpath.splitext`: the suffix
after the last dot of the name, provided some character before that dot is not
itself a dot (so `.bashrc` has no extension). -/
def splitextExt (name : String) : String :=
  let rev := name.toList.reverse
  let afterDot := rev.takeWhile (fun c => c ≠ '.')
  if afterDot.length = rev.length then ""
  else if (rev.drop (afterDot.length + 1)).any (fun c => c ≠ '.') then
    String.mk ('.' :: afterDot.reverse)
  else ""

/-- ASCII lowercasing of one character, as `str.lower` acts on extensions. -/
def lowerChar (c : Char) : Char :=
  if 65 ≤ c.toNat ∧ c.toNat ≤ 90 then Char.ofNat (c.toNat + 32) else c

/-- ASCII lowercasing of a string (`str.lower` on ASCII extensions). -/
def lowerString (s : String) : String :=
  String.mk (s.toList.map lowerChar)

/-- The standard-library `mimetypes.types_map`, restricted to common entries
(the full table is larger but has the same lookup structure). -/
def types_map (ext : String) : Option String :=
  if ext = ".html" ∨ ext = ".htm" then some "text/html"
  else if ext = ".css" then some "text/css"
  else if ext = ".js" then some "text/javascript"
  else if ext = ".json" then some "application/json"
  else if ext = ".txt" then some "text/plain"
  else if ext = ".png" then some "image/png"
  else if ext = ".jpg" ∨ ext = ".jpeg" then some "image/jpeg"
  else if ext = ".gif" then some "image/gif"
  else if ext = ".svg" then some "image/svg+xml"
  else if ext = ".pdf" then some "application/pdf"
  else none

/-- Embedding of `mimetypes.guess_type` on a basename: look the extension up in
the type table, falling back to a case-insensitive lookup. -/
def guess_type (name : String) : Option String :=
  match types_map (splitextExt name) with
  | some t => some t
  | none => types_map (lowerString (splitextExt name))

/-- The content type `werkzeug.utils.send_file` attaches: the guessed type of
the download name (the basename of the served path), defaulting to the generic
binary type when the extension is unrecognised. -/
def mimetypeFor (name : String) : String :=
  (guess_type name).getD "application/octet-stream"

/-- Embedding of `werkzeug.utils.send_file` on an already-validated relative
path: resolve it against the working directory and open it.  A readable
regular file is returned as a 200 with its bytes and the guessed content type;
an unreadable file makes `open` raise `PermissionError`, and a missing file or
directory makes `open`/`read` raise `OSError` — unhandled exceptions become a
500 response.  The attempted open is recorded as a read effect. -/
def send_file (fs : FS) (cwd : List String) (p : List String) :
    Response × List Eff :=
  let abs := osResolve cwd p
  match fs.entry abs with
  | .file c true => (.ok c (mimetypeFor (basenameSegs p)), [.readE abs])
  | .file _ false => (.error 500, [.readE abs])
  | _ => (.error 500, [.readE abs])

/-- Embedding of `flask.send_from_directory` (via `werkzeug.utils`): join the
directory and requested path with `safe_join`, raising `NotFound` (404) when
the join is rejected; raise `NotFound` when the joined path is not a regular
file (`os.path.isfile`, recorded as a stat effect); otherwise delegate to
`send_file`. -/
def send_from_directory (fs : FS) (cwd : List String)
    (directory : List String) (path : List String) : Response × List Eff :=
  match safe_join directory path with
  | none => (.error 404, [])
  | some j =>
    let abs := osResolve cwd j
    if isRegularFile (fs.entry abs) then
      let r := send_file fs cwd j
      (r.1, .statE abs :: r.2)
    else
      (.error 404, [.statE abs])

/-- The `index` view of `src/main.py`: `send_from_directory('.', 'index.html')`. -/
def index (fs : FS) (cwd : List String) : Response × List Eff :=
  send_from_directory fs cwd ["."] ["index.html"]

/-- The `serve_file` view of `src/main.py`: `send_from_directory('.', path)`. -/
def serve_file (fs : FS) (cwd : List String) (path : List String) :
    Response × List Eff :=
  send_from_directory fs cwd ["."] path

/-- The HTTP methods the model distinguishes. -/
inductive Method where
  | get
  | head
  | options
  | post
  | put
  | delete
  | patch
deriving DecidableEq, Repr

/-- Outcome of matching a request URL against the two registered rules. -/
inductive RouteMatch where
  | toIndex
  | toServe (path : List String)
  | slashRedirect
  | noMatch
deriving DecidableEq, Repr

/-- Werkzeug URL matching for the rule table of `src/main.py`.  The URL is the
`'/'`-split of the request path.  `/` matches the index rule; `/<path:path>`
matches when the remainder after the leading slash is non-empty and does not
itself start with a slash (the `path` converter regex `[^/].*?`); a URL whose
remainder starts with another slash fails both rules and, with the default
`merge_slashes`, produces a 308 redirect to the slash-merged URL; anything
else (no leading slash) matches no rule. -/
def matchRoute : List String → RouteMatch
  | a :: rest =>
    if a = "" then
      if rest = [""] then .toIndex
      else if rest.head? = some "" then .slashRedirect
      else if rest = [] then .noMatch
      else .toServe rest
    else .noMatch
  | [] => .noMatch

/-- The methods a matched rule accepts: both rules are registered with the
default `GET`, to which Flask adds automatic `HEAD` and `OPTIONS` handling. -/
def allowedMethods : Method → Bool
  | .get => true
  | .head => true
  | .options => true
  | _ => false

/-- The WSGI layer strips the body of a response to a `HEAD` request. -/
def stripBodyForHead (m : Method) (r : Response) : Response :=
  if m = .head then
    match r with
    | .ok _ ct => .ok [] ct
    | .error s => .error s
  else r

/-- Full request dispatch of the Flask application: match the URL (a failed
match is 404, a merge-slash failure is a 308 redirect, both independent of the
method); on a matched rule, a method outside the rule's set is 405, `OPTIONS`
receives the automatic empty default response without invoking the view, and
otherwise the view runs, with the body stripped for `HEAD`. -/
def appDispatch (fs : FS) (cwd : List String) (m : Method)
    (url : List String) : Response × List Eff :=
  match matchRoute url with
  | .noMatch => (.error 404, [])
  | .slashRedirect => (.error 308, [])
  | .toIndex =>
    if allowedMethods m = false then (.error 405, [])
    else if m = .options then (.ok [] "text/html; charset=utf-8", [])
    else
      let r := index fs cwd
      (stripBodyForHead m r.1, r.2)
  | .toServe p =>
    if allowedMethods m = false then (.error 405, [])
    else if m = .options then (.ok [] "text/html; charset=utf-8", [])
    else
      let r := serve_file fs cwd p
      (stripBodyForHead m r.1, r.2)

/-- The hardcoded fallback secret of `src/main.py` line 5. -/
def defaultSecret : String :=
  "income-tax-calculator-secret-key"

/-- Startup line 5: `os.environ.get("SESSION_SECRET", default)`. -/
def startupSecretKey (env : String → Option String) : String :=
  (env "SESSION_SECRET").getD defaultSecret

/-- The process-wide application state configured at startup. -/
structure AppState where
  secret_key : String
deriving DecidableEq, Repr

/-- Application construction at import time: the secret key is read once from
the environment with the hardcoded default. -/
def mkApp (env : String → Option String) : AppState :=
  { secret_key := startupSecretKey env }

/-- Handling one request in a given application state.  The views of
`src/main.py` never read or write `secret_key`, so the response and effects are
those of `appDispatch` alone. -/
def appHandle (st : AppState) (fs : FS) (cwd : List String) (m : Method)
    (url : List String) : Response × List Eff :=
  appDispatch fs cwd m url

/-- Sequential handling of a list of requests, threading the application
state: each request produces a response, and the state flows on to the next
request. -/
def handleRequests (st : AppState) (fs : FS) (cwd : List String) :
    List (Method × List String) → List Response × AppState
  | [] => ([], st)
  | (m, u) :: rs =>
    let r := appHandle st fs cwd m u
    let rest := handleRequests st fs cwd rs
    (r.1 :: rest.1, rest.2)

/-- Whether the raw resolution of a relative request path ever climbs above
its starting directory: tracking the current depth below the start, a `..` at
depth zero escapes. -/
def escapes : Nat → List String → Bool
  | _, [] => false
  | d, c :: cs =>
    if c = "" ∨ c = "." then escapes d cs
    else if c = ".." then (if d = 0 then true else escapes (d - 1) cs)
    else escapes (d + 1) cs

/-- A request URL whose captured wildcard path would lexically resolve outside
the root directory. -/
def escapesUrl (url : List String) : Bool :=
  match matchRoute url with
  | .toServe p => escapes 0 p
  | _ => false

/-- The `safe_join`ed relative path a request would serve, when it has one. -/
def requestTarget (url : List String) : Option (List String) :=
  match matchRoute url with
  | .toIndex => safe_join ["."] ["index.html"]
  | .toServe p => safe_join ["."] p
  | _ => none

/-- Reference recursion for the relative branch of the `normComps` fold: the
accumulator is abstracted as `k` leading `..` segments followed by a clean
suffix `good`. -/
def normRel : List String → Nat → List String → Nat × List String
  | [], k, good => (k, good)
  | c :: cs, k, good =>
    if c = "" ∨ c = "." then normRel cs k good
    else if c = ".." then
      if good = [] then normRel cs (k + 1) []
      else normRel cs k good.dropLast
    else normRel cs k (good ++ [c])

/-- The joined relative path `safe_join('.', p)` produces for an accepted
relative request path, expressed through the reference normalisation. -/
def resolvedJoin (p : List String) : List String :=
  "." :: (if (normRel p 0 []).2 = [] then ["."] else (normRel p 0 []).2)

/-- An environment with no `SESSION_SECRET` variable. -/
def envEmpty : String → Option String :=
  fun _ => none

/-- An environment that sets `SESSION_SECRET`. -/
def envWithSecret : String → Option String :=
  fun k => if k = "SESSION_SECRET" then some "s3cret" else none

/-- A concrete root directory used to evaluate the theorems. -/
def exRoot : List String := ["srv", "app"]

/-- A concrete filesystem used to evaluate the theorems: a root with an index
page, a file with an unrecognised extension, a subdirectory with a text file,
an unreadable file, and a readable file outside the root. -/
def exFS : FS :=
  ⟨fun p =>
    if p = ["srv", "app"] then .dir
    else if p = ["srv", "app", "index.html"] then .file [104, 105] true
    else if p = ["srv", "app", "data.xyz"] then .file [1, 2, 3] true
    else if p = ["srv", "app", "docs"] then .dir
    else if p = ["srv", "app", "docs", "a.txt"] then .file [97] true
    else if p = ["srv", "app", "locked.bin"] then .file [9, 9] false
    else if p = ["srv", "secret.txt"] then .file [42] true
    else .absent⟩

/-! ### Basic facts about clean segment lists -/

theorem cleanSegs_iff (g : List String) : cleanSegs g = true ↔ CleanP g := by
  simp only [cleanSegs, CleanP, List.all_eq_true, cleanSeg]
  constructor
  · intro h c hc
    have := h c hc
    simp only [Bool.not_eq_true', Bool.or_eq_false_iff, decide_eq_false_iff_not] at this
    exact ⟨this.1.1, this.1.2, this.2⟩
  · intro h c hc
    have := h c hc
    simp only [Bool.not_eq_true', Bool.or_eq_false_iff, decide_eq_false_iff_not]
    exact ⟨⟨this.1, this.2.1⟩, this.2.2⟩

theorem CleanP_nil : CleanP [] := by
  intro c hc
  cases hc

theorem CleanP_push {g : List String} {c : String} (h : CleanP g)
    (h1 : c ≠ "") (h2 : c ≠ ".") (h3 : c ≠ "..") : CleanP (g ++ [c]) := by
  intro x hx
  rcases List.mem_append.mp hx with hx | hx
  · exact h x hx
  · rcases List.mem_singleton.mp hx with rfl
    exact ⟨h1, h2, h3⟩

theorem CleanP_dropLast {g : List String} (h : CleanP g) : CleanP g.dropLast :=
  fun x hx => h x (List.mem_of_mem_dropLast hx)

theorem CleanP_getLast_ne {g : List String} (h : CleanP g) :
    g.getLast? ≠ some ".." := by
  intro hcon
  have heq : g.dropLast ++ [".."] = g := List.dropLast_append_getLast? _ hcon
  have hmem : ".." ∈ g := by
    rw [← heq]
    exact List.mem_append_right _ (List.mem_singleton.mpr rfl)
  exact (h _ hmem).2.2 rfl

theorem getLast_replicate_dots (k : Nat) (hk : 0 < k) :
    (List.replicate k (".." : String)).getLast? = some ".." := by
  obtain ⟨m, rfl⟩ := Nat.exists_eq_add_of_lt hk
  rw [Nat.zero_add, List.replicate_succ', List.getLast?_concat]

theorem replicate_dots_append_ne_nil (k : Nat) (g : List String) (hk : 0 < k) :
    List.replicate k (".." : String) ++ g ≠ [] := by
  obtain ⟨m, rfl⟩ := Nat.exists_eq_add_of_lt hk
  rw [Nat.zero_add, List.replicate_succ]
  exact List.cons_ne_nil _ _

/-! ### The component loop of normpath, related to its reference recursion -/

theorem normRel_fst_le (cs : List String) :
    ∀ (k : Nat) (good : List String), k ≤ (normRel cs k good).1 := by
  induction cs with
  | nil => intro k good; exact Nat.le_refl k
  | cons c cs ih =>
    intro k good
    simp only [normRel]
    split
    · exact ih k good
    · split
      · split
        · exact Nat.le_trans (Nat.le_succ k) (ih (k + 1) [])
        · exact ih k good.dropLast
      · exact ih k (good ++ [c])

theorem normRel_clean (cs : List String) :
    ∀ (k : Nat) (good : List String), CleanP good → CleanP (normRel cs k good).2 := by
  induction cs with
  | nil => intro k good h; exact h
  | cons c cs ih =>
    intro k good h
    simp only [normRel]
    split
    · exact ih k good h
    · split
      · split
        · exact ih (k + 1) [] CleanP_nil
        · exact ih k good.dropLast (CleanP_dropLast h)
      · rename_i h1 h2
        push_neg at h1
        exact ih k (good ++ [c]) (CleanP_push h h1.1 h1.2 h2)

theorem escapes_cons (d : Nat) (c : String) (cs : List String) :
    escapes d (c :: cs) =
      if c = "" ∨ c = "." then escapes d cs
      else if c = ".." then (if d = 0 then true else escapes (d - 1) cs)
      else escapes (d + 1) cs := rfl

theorem normRel_cons (c : String) (cs : List String) (k : Nat)
    (good : List String) :
    normRel (c :: cs) k good =
      if c = "" ∨ c = "." then normRel cs k good
      else if c = ".." then
        (if good = [] then normRel cs (k + 1) [] else normRel cs k good.dropLast)
      else normRel cs k (good ++ [c]) := rfl

theorem escapes_iff_normRel (cs : List String) :
    ∀ (k : Nat) (good : List String),
      escapes good.length cs = true ↔ k < (normRel cs k good).1 := by
  induction cs with
  | nil =>
    intro k good
    simp [escapes, normRel]
  | cons c cs ih =>
    intro k good
    rw [escapes_cons, normRel_cons]
    by_cases hskip : c = "" ∨ c = "."
    · rw [if_pos hskip, if_pos hskip]
      exact ih k good
    · by_cases hdd : c = ".."
      · subst hdd
        rw [if_neg hskip, if_neg hskip, if_pos rfl, if_pos rfl]
        by_cases hg : good = []
        · subst hg
          rw [if_pos rfl, if_pos (show ([] : List String).length = 0 from rfl)]
          constructor
          · intro _
            exact Nat.lt_of_lt_of_le (Nat.lt_succ_self k)
              (normRel_fst_le cs (k + 1) [])
          · intro _
            rfl
        · rw [if_neg hg, if_neg (fun hcon => hg (List.length_eq_zero.mp hcon)),
            ← List.length_dropLast]
          exact ih k good.dropLast
      · rw [if_neg hskip, if_neg hskip, if_neg hdd, if_neg hdd,
          show good.length + 1 = (good ++ [c]).length by simp]
        exact ih k (good ++ [c])

theorem normStep_skip {c : String} (acc : List String)
    (hskip : c = "" ∨ c = ".") : normStep false acc c = acc := by
  simp only [normStep]
  rw [if_pos hskip]

theorem normStep_push {c : String} (acc : List String)
    (hskip : ¬(c = "" ∨ c = ".")) (hdd : c ≠ "..") :
    normStep false acc c = acc ++ [c] := by
  simp only [normStep]
  rw [if_neg hskip, if_pos (Or.inl hdd)]

theorem normStep_dots_empty (k : Nat) :
    normStep false (List.replicate k ".." ++ ([] : List String)) ".."
      = List.replicate (k + 1) ".." ++ ([] : List String) := by
  simp only [normStep]
  split
  · rename_i hc
    exact absurd hc (by simp)
  · split
    · simp [List.replicate_succ']
    · rename_i hc
      exfalso
      push_neg at hc
      cases k with
      | zero => exact hc.2.1 (by simp) (by simp)
      | succ m =>
        exact hc.2.2 (replicate_dots_append_ne_nil (m + 1) [] (Nat.succ_pos m))
          (by rw [List.append_nil]
              exact getLast_replicate_dots (m + 1) (Nat.succ_pos m))

theorem normStep_dots_pop {good : List String} (k : Nat) (h : CleanP good)
    (hg : good ≠ []) :
    normStep false (List.replicate k ".." ++ good) ".."
      = List.replicate k ".." ++ good.dropLast := by
  have hacc_ne : List.replicate k (".." : String) ++ good ≠ [] := by
    intro hcon
    exact hg (List.append_eq_nil.mp hcon).2
  simp only [normStep]
  split
  · rename_i hc
    exact absurd hc (by simp)
  · split
    · rename_i hc
      exfalso
      rcases hc with hc | hc | hc
      · exact hc rfl
      · exact hacc_ne hc.2
      · rw [List.getLast?_append_of_ne_nil _ hg] at hc
        exact CleanP_getLast_ne h hc.2
    · exact List.dropLast_append_of_ne_nil _ hg

theorem foldl_normStep_rel (cs : List String) :
    ∀ (k : Nat) (good : List String), CleanP good →
      List.foldl (normStep false) (List.replicate k ".." ++ good) cs
        = List.replicate (normRel cs k good).1 ".." ++ (normRel cs k good).2 := by
  induction cs with
  | nil =>
    intro k good _
    rfl
  | cons c cs ih =>
    intro k good h
    rw [List.foldl_cons, normRel_cons]
    by_cases hskip : c = "" ∨ c = "."
    · rw [if_pos hskip, normStep_skip _ hskip]
      exact ih k good h
    · by_cases hdd : c = ".."
      · subst hdd
        rw [if_neg hskip, if_pos rfl]
        by_cases hg : good = []
        · subst hg
          rw [if_pos rfl, normStep_dots_empty k]
          exact ih (k + 1) [] CleanP_nil
        · rw [if_neg hg, normStep_dots_pop k h hg]
          exact ih k good.dropLast (CleanP_dropLast h)
      · rw [if_neg hskip, if_neg hdd, normStep_push _ hskip hdd,
          List.append_assoc]
        push_neg at hskip
        exact ih k (good ++ [c]) (CleanP_push h hskip.1 hskip.2 hdd)

/-! ### Resolution of accepted request paths -/

theorem osResolve_cons (cwd : List String) (c : String) (cs : List String) :
    osResolve cwd (c :: cs) =
      if c = "" ∨ c = "." then osResolve cwd cs
      else if c = ".." then osResolve cwd.dropLast cs
      else osResolve (cwd ++ [c]) cs := rfl

theorem osResolve_clean :
    ∀ (g : List String), CleanP g → ∀ cwd, osResolve cwd g = cwd ++ g := by
  intro g
  induction g with
  | nil =>
    intro _ cwd
    simp [osResolve]
  | cons c cs ih =>
    intro h cwd
    obtain ⟨h1, h2, h3⟩ := h c (List.mem_cons_self c cs)
    rw [osResolve_cons, if_neg (fun hcon => hcon.elim h1 h2), if_neg h3,
      ih (fun x hx => h x (List.mem_cons_of_mem _ hx)) (cwd ++ [c])]
    simp

theorem normRel_clean_append :
    ∀ (cs : List String), CleanP cs →
      ∀ (k : Nat) (good : List String), normRel cs k good = (k, good ++ cs) := by
  intro cs
  induction cs with
  | nil =>
    intro _ k good
    simp [normRel]
  | cons c cs ih =>
    intro h k good
    obtain ⟨h1, h2, h3⟩ := h c (List.mem_cons_self c cs)
    rw [normRel_cons, if_neg (fun hcon => hcon.elim h1 h2), if_neg h3,
      ih (fun x hx => h x (List.mem_cons_of_mem _ hx)) k (good ++ [c])]
    simp

theorem normComps_false_eq (p : List String) :
    normComps false p
      = List.replicate (normRel p 0 []).1 ".." ++ (normRel p 0 []).2 := by
  have h := foldl_normStep_rel p 0 [] CleanP_nil
  simpa [normComps] using h

theorem escapes_zero_iff (p : List String) :
    escapes 0 p = true ↔ 0 < (normRel p 0 []).1 := by
  have h := escapes_iff_normRel p 0 []
  simpa using h

theorem normpathSegs_rel (p : List String) (habs : p.head? ≠ some "")
    (hne : p ≠ [""]) :
    normpathSegs p =
      if List.replicate (normRel p 0 []).1 ".." ++ (normRel p 0 []).2 = []
      then ["."]
      else List.replicate (normRel p 0 []).1 ".." ++ (normRel p 0 []).2 := by
  have habs2 : isabsSegs p = false := by
    simp [isabsSegs, habs]
  have hn : initialSlashCount p = 0 := by
    simp [initialSlashCount, habs2]
  simp only [normpathSegs, if_neg hne, hn]
  rw [show decide (0 < 0) = false from rfl, normComps_false_eq p]
  split <;> simp

theorem safe_join_dot_none (p : List String) (habs : p.head? ≠ some "")
    (hne : p ≠ [""]) (hesc : escapes 0 p = true) :
    safe_join ["."] p = none := by
  have hk : 0 < (normRel p 0 []).1 := (escapes_zero_iff p).mp hesc
  have hout_ne :
      List.replicate (normRel p 0 []).1 (".." : String) ++ (normRel p 0 []).2
        ≠ [] := replicate_dots_append_ne_nil _ _ hk
  obtain ⟨m, hm⟩ := Nat.exists_eq_add_of_lt hk
  have hfn2 : normpathSegs p
      = ".." :: (List.replicate m ".." ++ (normRel p 0 []).2) := by
    rw [normpathSegs_rel p habs hne, if_neg hout_ne, hm, Nat.zero_add,
      List.replicate_succ, List.cons_append]
  rcases hrest : List.replicate m (".." : String) ++ (normRel p 0 []).2
    with _ | ⟨x, xs⟩
  · have hfn3 : normpathSegs p = [".."] := by rw [hfn2, hrest]
    simp only [safe_join]
    rw [if_pos hne, hfn3]
    simp
  · have hfn3 : normpathSegs p = ".." :: x :: xs := by rw [hfn2, hrest]
    simp only [safe_join]
    rw [if_pos hne, hfn3]
    simp

theorem safe_join_dot_some (p : List String) (habs : p.head? ≠ some "")
    (hne : p ≠ [""]) (hesc : escapes 0 p = false) :
    safe_join ["."] p = some (resolvedJoin p) ∧
    CleanP (normRel p 0 []).2 ∧
    ∀ cwd, osResolve cwd (resolvedJoin p) = cwd ++ (normRel p 0 []).2 := by
  have hclean : CleanP (normRel p 0 []).2 := normRel_clean p 0 [] CleanP_nil
  have hk : (normRel p 0 []).1 = 0 := by
    by_contra hcon
    rw [(escapes_zero_iff p).mpr (Nat.pos_of_ne_zero hcon)] at hesc
    cases hesc
  have hfn : normpathSegs p =
      if (normRel p 0 []).2 = [] then ["."] else (normRel p 0 []).2 := by
    rw [normpathSegs_rel p habs hne, hk]
    simp
  by_cases hg1 : (normRel p 0 []).2 = []
  · have hfn3 : normpathSegs p = ["."] := by rw [hfn, if_pos hg1]
    have hrj : resolvedJoin p = [".", "."] := by simp [resolvedJoin, hg1]
    refine ⟨?_, hclean, ?_⟩
    · simp only [safe_join]
      rw [if_pos hne, hfn3, hrj]
      simp [isabsSegs, posixJoinSegs]
    · intro cwd
      rw [hrj, hg1]
      simp [osResolve]
  · have hfn3 : normpathSegs p = (normRel p 0 []).2 := by rw [hfn, if_neg hg1]
    have hrj : resolvedJoin p = "." :: (normRel p 0 []).2 := by
      simp [resolvedJoin, hg1]
    obtain ⟨x, xs, hx⟩ : ∃ x xs, (normRel p 0 []).2 = x :: xs := by
      rcases h2 : (normRel p 0 []).2 with _ | ⟨x, xs⟩
      · exact absurd h2 hg1
      · exact ⟨x, xs, rfl⟩
    obtain ⟨hx1, hx2, hx3⟩ := hclean x (by rw [hx]; exact List.mem_cons_self x xs)
    refine ⟨?_, hclean, ?_⟩
    · simp only [safe_join]
      rw [if_pos hne, hfn3, hrj, hx]
      have hcond : ¬(isabsSegs (x :: xs) = true ∨ x :: xs = [".."] ∨
          ((x :: xs).head? = some ".." ∧ 2 ≤ (x :: xs).length)) := by
        intro hcon
        rcases hcon with hcon | hcon | hcon
        · simp [isabsSegs] at hcon
          exact hx1 hcon.1
        · simp at hcon
          exact hx3 hcon.1
        · simp at hcon
          exact hx3 hcon.1
      rw [if_neg hcond]
      simp [posixJoinSegs, isabsSegs, hx1]
    · intro cwd
      rw [hrj, osResolve_cons, if_pos (Or.inr rfl)]
      exact osResolve_clean _ hclean cwd

/-! ### Behaviour of the request handlers -/

theorem send_from_directory_none {fs : FS} {cwd directory path : List String}
    (h : safe_join directory path = none) :
    send_from_directory fs cwd directory path = (.error 404, []) := by
  simp [send_from_directory, h]

theorem serve_file_escapes (fs : FS) (cwd p : List String)
    (habs : p.head? ≠ some "") (hne : p ≠ [""]) (hesc : escapes 0 p = true) :
    serve_file fs cwd p = (.error 404, []) := by
  unfold serve_file
  exact send_from_directory_none (safe_join_dot_none p habs hne hesc)

theorem serve_file_resolved (fs : FS) (cwd p : List String)
    (habs : p.head? ≠ some "") (hne : p ≠ [""]) (hesc : escapes 0 p = false) :
    serve_file fs cwd p =
      match fs.entry (cwd ++ (normRel p 0 []).2) with
      | .file c true =>
        (.ok c (mimetypeFor (basenameSegs (resolvedJoin p))),
          [.statE (cwd ++ (normRel p 0 []).2), .readE (cwd ++ (normRel p 0 []).2)])
      | .file _ false =>
        (.error 500,
          [.statE (cwd ++ (normRel p 0 []).2), .readE (cwd ++ (normRel p 0 []).2)])
      | .dir => (.error 404, [.statE (cwd ++ (normRel p 0 []).2)])
      | .absent => (.error 404, [.statE (cwd ++ (normRel p 0 []).2)]) := by
  obtain ⟨hj, hclean, hres⟩ := safe_join_dot_some p habs hne hesc
  unfold serve_file send_from_directory send_file
  rw [hj]
  simp only [hres cwd]
  rcases hE : fs.entry (cwd ++ (normRel p 0 []).2) with ⟨c, r⟩ | _ | _
  · rcases r with _ | _
    · simp [isRegularFile]
    · simp [isRegularFile]
  · simp [isRegularFile]
  · simp [isRegularFile]

/-! ### Dispatch-level lemmas -/

theorem matchRoute_toServe_inv {url p : List String}
    (h : matchRoute url = .toServe p) :
    url = "" :: p ∧ p ≠ [] ∧ p ≠ [""] ∧ p.head? ≠ some "" := by
  rcases url with _ | ⟨a, rest⟩
  · simp [matchRoute] at h
  · simp only [matchRoute] at h
    by_cases ha : a = ""
    · rw [if_pos ha] at h
      by_cases h1 : rest = [""]
      · rw [if_pos h1] at h
        simp at h
      · rw [if_neg h1] at h
        by_cases h2 : rest.head? = some ""
        · rw [if_pos h2] at h
          simp at h
        · rw [if_neg h2] at h
          by_cases h3 : rest = []
          · rw [if_pos h3] at h
            simp at h
          · rw [if_neg h3] at h
            have hp : rest = p := by
              injection h
            subst hp
            exact ⟨by rw [ha], h3, h1, h2⟩
    · rw [if_neg ha] at h
      simp at h

theorem appDispatch_noMatch {url : List String} (fs : FS) (cwd : List String)
    (m : Method) (hm : matchRoute url = .noMatch) :
    appDispatch fs cwd m url = (.error 404, []) := by
  unfold appDispatch
  rw [hm]

theorem appDispatch_slashRedirect {url : List String} (fs : FS)
    (cwd : List String) (m : Method) (hm : matchRoute url = .slashRedirect) :
    appDispatch fs cwd m url = (.error 308, []) := by
  unfold appDispatch
  rw [hm]

theorem appDispatch_toIndex {url : List String} (fs : FS) (cwd : List String)
    (m : Method) (hm : matchRoute url = .toIndex) :
    appDispatch fs cwd m url =
      if allowedMethods m = false then (.error 405, [])
      else if m = .options then (.ok [] "text/html; charset=utf-8", [])
      else (stripBodyForHead m (serve_file fs cwd ["index.html"]).1,
        (serve_file fs cwd ["index.html"]).2) := by
  unfold appDispatch
  rw [hm]
  rfl

theorem appDispatch_toServe {url p : List String} (fs : FS)
    (cwd : List String) (m : Method) (hm : matchRoute url = .toServe p) :
    appDispatch fs cwd m url =
      if allowedMethods m = false then (.error 405, [])
      else if m = .options then (.ok [] "text/html; charset=utf-8", [])
      else (stripBodyForHead m (serve_file fs cwd p).1,
        (serve_file fs cwd p).2) := by
  unfold appDispatch
  rw [hm]

theorem escapesUrl_toServe {url : List String} (h : escapesUrl url = true) :
    ∃ p, matchRoute url = .toServe p ∧ escapes 0 p = true := by
  unfold escapesUrl at h
  rcases hm : matchRoute url with _ | p | _ | _ <;> rw [hm] at h
  · cases h
  · exact ⟨p, rfl, h⟩
  · cases h
  · cases h

theorem serve_file_effects (fs : FS) (cwd p : List String)
    (habs : p.head? ≠ some "") (hne : p ≠ [""]) :
    ∀ e ∈ (serve_file fs cwd p).2, e.isWrite = false ∧ cwd <+: e.path := by
  cases hesc : escapes 0 p
  · intro e he
    rw [serve_file_resolved fs cwd p habs hne hesc] at he
    rcases hE : fs.entry (cwd ++ (normRel p 0 []).2) with ⟨c, r⟩ | _ | _ <;>
      rw [hE] at he
    · rcases r with _ | _ <;>
      · simp only [List.mem_cons, List.mem_singleton, List.not_mem_nil,
          or_false] at he
        rcases he with rfl | rfl
        · exact ⟨rfl, List.prefix_append _ _⟩
        · exact ⟨rfl, List.prefix_append _ _⟩
    · simp only [List.mem_singleton] at he
      subst he
      exact ⟨rfl, List.prefix_append _ _⟩
    · simp only [List.mem_singleton] at he
      subst he
      exact ⟨rfl, List.prefix_append _ _⟩
  · intro e he
    rw [serve_file_escapes fs cwd p habs hne hesc] at he
    cases he

theorem appDispatch_effects (fs : FS) (cwd : List String) (m : Method)
    (url : List String) :
    ∀ e ∈ (appDispatch fs cwd m url).2, e.isWrite = false ∧ cwd <+: e.path := by
  rcases hm : matchRoute url with _ | p | _ | _
  · rw [appDispatch_toIndex fs cwd m hm]
    by_cases hall : allowedMethods m = false
    · rw [if_pos hall]
      intro e he
      cases he
    · rw [if_neg hall]
      by_cases hopt : m = .options
      · rw [if_pos hopt]
        intro e he
        cases he
      · rw [if_neg hopt]
        exact serve_file_effects fs cwd ["index.html"] (by simp) (by simp)
  · rw [appDispatch_toServe fs cwd m hm]
    obtain ⟨-, -, hne, habs⟩ := matchRoute_toServe_inv hm
    by_cases hall : allowedMethods m = false
    · rw [if_pos hall]
      intro e he
      cases he
    · rw [if_neg hall]
      by_cases hopt : m = .options
      · rw [if_pos hopt]
        intro e he
        cases he
      · rw [if_neg hopt]
        exact serve_file_effects fs cwd p habs hne
  · rw [appDispatch_slashRedirect fs cwd m hm]
    intro e he
    cases he
  · rw [appDispatch_noMatch fs cwd m hm]
    intro e he
    cases he

theorem stripBodyForHead_error (m : Method) (s : Nat) :
    stripBodyForHead m (.error s) = .error s := by
  unfold stripBodyForHead
  split <;> rfl

theorem mimetypeFor_none {name : String} (h : guess_type name = none) :
    mimetypeFor name = "application/octet-stream" := by
  unfold mimetypeFor
  rw [h]
  rfl

/-! ### The claims -/

/-- C1 (amended): for every request whose wildcard path would lexically
resolve outside the root directory, every method except OPTIONS receives a
non-200 status; any 200 response to such a request (the automatic OPTIONS
response) has an empty body, so file contents are never returned; and for
every request whatsoever, every filesystem effect is a read-side effect on a
path inside the root subtree. -/
theorem c1_traversal_contained (fs : FS) (cwd : List String) (m : Method)
    (url : List String) :
    (escapesUrl url = true → m ≠ .options →
      ((appDispatch fs cwd m url).1).status ≠ 200) ∧
    (escapesUrl url = true →
      ∀ b ct, (appDispatch fs cwd m url).1 = .ok b ct → b = []) ∧
    (∀ e ∈ (appDispatch fs cwd m url).2, e.isWrite = false ∧ cwd <+: e.path) := by
  refine ⟨?_, ?_, appDispatch_effects fs cwd m url⟩
  · intro hesc hm
    obtain ⟨p, hm2, hp⟩ := escapesUrl_toServe hesc
    obtain ⟨-, -, hne, habs⟩ := matchRoute_toServe_inv hm2
    rw [appDispatch_toServe fs cwd m hm2]
    by_cases hall : allowedMethods m = false
    · rw [if_pos hall]
      simp [Response.status]
    · rw [if_neg hall, if_neg hm, serve_file_escapes fs cwd p habs hne hp,
        stripBodyForHead_error]
      simp [Response.status]
  · intro hesc b ct hok
    obtain ⟨p, hm2, hp⟩ := escapesUrl_toServe hesc
    obtain ⟨-, -, hne, habs⟩ := matchRoute_toServe_inv hm2
    rw [appDispatch_toServe fs cwd m hm2] at hok
    by_cases hall : allowedMethods m = false
    · rw [if_pos hall] at hok
      simp at hok
    · rw [if_neg hall] at hok
      by_cases hopt : m = .options
      · rw [if_pos hopt] at hok
        injection hok with h1 h2
        exact h1.symm
      · rw [if_neg hopt, serve_file_escapes fs cwd p habs hne hp,
          stripBodyForHead_error] at hok
        simp at hok

/-- C1 counterexample to the claim as stated: a traversal request made with
the OPTIONS method receives status 200 (Flask's automatic OPTIONS response),
not a non-200 status — though its body is empty and no file is touched. -/
theorem c1_counterexample_options :
    escapesUrl ["", "..", "..", "etc", "passwd"] = true ∧
    ((appDispatch exFS exRoot .options ["", "..", "..", "etc", "passwd"]).1).status
      = 200 := by
  decide

/-- C1 witness: a concrete traversal GET is refused with a non-200 status. -/
theorem c1_witness :
    ((appDispatch exFS exRoot .get ["", "..", "..", "etc", "passwd"]).1).status
      ≠ 200 :=
  (c1_traversal_contained exFS exRoot .get ["", "..", "..", "etc", "passwd"]).1
    (by decide) (by decide)

/-- C2 counterexample to the claim as stated: a regular file that exists under
the root but is not readable is answered with status 500, not 200. -/
theorem c2_counterexample_unreadable :
    isRegularFile (exFS.entry (exRoot ++ ["locked.bin"])) = true ∧
    ((appDispatch exFS exRoot .get ["", "locked.bin"]).1).status = 500 ∧
    (500 : Nat) ≠ 200 := by
  decide

/-- C2 (amended): for every readable regular file under the root directory,
a GET for its relative path returns a 200 response whose payload is exactly
the file's contents. -/
theorem c2_readable_file_served (fs : FS) (cwd g : List String)
    (body : List Nat) (hclean : cleanSegs g = true) (hne : g ≠ [])
    (hf : fs.entry (cwd ++ g) = .file body true) :
    (appDispatch fs cwd .get ("" :: g)).1
      = .ok body (mimetypeFor (basenameSegs (resolvedJoin g))) := by
  have hcleanP : CleanP g := (cleanSegs_iff g).mp hclean
  have hne1 : g ≠ [""] := by
    intro hcon
    subst hcon
    exact ((hcleanP "" (by simp)).1) rfl
  have habs : g.head? ≠ some "" := by
    rcases g with _ | ⟨x, xs⟩
    · exact absurd rfl hne
    · obtain ⟨h1, -, -⟩ := hcleanP x (List.mem_cons_self x xs)
      simp [h1]
  have hm : matchRoute ("" :: g) = .toServe g := by
    simp only [matchRoute]
    rw [if_pos trivial, if_neg hne1, if_neg habs, if_neg hne]
  have hrel : normRel g 0 [] = (0, g) := by
    rw [normRel_clean_append g hcleanP 0 []]
    simp
  have hrel2 : (normRel g 0 []).2 = g := by
    rw [hrel]
  have hesc : escapes 0 g = false := by
    cases h2 : escapes 0 g
    · rfl
    · have hlt := (escapes_zero_iff g).mp h2
      rw [hrel] at hlt
      exact absurd hlt (by simp)
  rw [appDispatch_toServe fs cwd .get hm, if_neg (by decide),
    if_neg (by decide), serve_file_resolved fs cwd g habs hne1 hesc,
    hrel2, hf]
  rfl

/-- C2 witness: a concrete readable file under the root is served verbatim. -/
theorem c2_witness :
    (appDispatch exFS exRoot .get ["", "docs", "a.txt"]).1
      = .ok [97] (mimetypeFor (basenameSegs (resolvedJoin ["docs", "a.txt"]))) :=
  c2_readable_file_served exFS exRoot ["docs", "a.txt"] [97] (by decide)
    (by decide) (by decide)

/-- C3: GET / serves the `index.html` file directly under the root directory
(when it is a readable regular file there), and returns 404 when no regular
file `index.html` exists at the root. -/
theorem c3_index_route (fs : FS) (cwd : List String) :
    (∀ c, fs.entry (cwd ++ ["index.html"]) = .file c true →
      (appDispatch fs cwd .get ["", ""]).1 = .ok c "text/html") ∧
    (isRegularFile (fs.entry (cwd ++ ["index.html"])) = false →
      (appDispatch fs cwd .get ["", ""]).1 = .error 404) := by
  have hm : matchRoute ["", ""] = .toIndex := by decide
  have habs : (["index.html"] : List String).head? ≠ some "" := by decide
  have hne : (["index.html"] : List String) ≠ [""] := by decide
  have hesc : escapes 0 ["index.html"] = false := by decide
  have hrel2 : (normRel ["index.html"] 0 []).2 = ["index.html"] := by decide
  constructor
  · intro c hf
    rw [appDispatch_toIndex fs cwd .get hm, if_neg (by decide),
      if_neg (by decide),
      serve_file_resolved fs cwd ["index.html"] habs hne hesc, hrel2, hf]
    rfl
  · intro hnf
    rw [appDispatch_toIndex fs cwd .get hm, if_neg (by decide),
      if_neg (by decide),
      serve_file_resolved fs cwd ["index.html"] habs hne hesc, hrel2]
    rcases hE : fs.entry (cwd ++ ["index.html"]) with ⟨c, r⟩ | _ | _
    · rw [hE] at hnf
      simp [isRegularFile] at hnf
    · rfl
    · rfl

/-- C3 witness: with `index.html` present, GET / returns its bytes; the 404
case is exercised through the same theorem's second conjunct on a root
without an index file. -/
theorem c3_witness :
    (appDispatch exFS exRoot .get ["", ""]).1 = .ok [104, 105] "text/html" ∧
    (appDispatch exFS ["srv"] .get ["", ""]).1 = .error 404 :=
  ⟨(c3_index_route exFS exRoot).1 [104, 105] (by decide),
   (c3_index_route exFS ["srv"]).2 (by decide)⟩

/-- C4: a GET whose wildcard path does not resolve to an existing regular
file under the root — because the path is rejected, the target is absent, or
the target is a directory — returns 404 and no listing. -/
theorem c4_missing_or_directory_404 (fs : FS) (cwd url p : List String)
    (hm : matchRoute url = .toServe p)
    (hnf : (safe_join ["."] p).all
      (fun j => !isRegularFile (fs.entry (osResolve cwd j))) = true) :
    (appDispatch fs cwd .get url).1 = .error 404 := by
  obtain ⟨-, -, hne, habs⟩ := matchRoute_toServe_inv hm
  rw [appDispatch_toServe fs cwd .get hm, if_neg (by decide),
    if_neg (by decide)]
  cases hesc : escapes 0 p
  · obtain ⟨hj, hclean, hres⟩ := safe_join_dot_some p habs hne hesc
    rw [hj] at hnf
    simp only [Option.all] at hnf
    rw [hres cwd] at hnf
    rw [serve_file_resolved fs cwd p habs hne hesc]
    rcases hE : fs.entry (cwd ++ (normRel p 0 []).2) with ⟨c, r⟩ | _ | _
    · rw [hE] at hnf
      simp [isRegularFile] at hnf
    · rfl
    · rfl
  · rw [serve_file_escapes fs cwd p habs hne hesc]
    rfl

/-- C4 witness: a GET for a subdirectory of the root returns 404. -/
theorem c4_witness :
    (appDispatch exFS exRoot .get ["", "docs"]).1 = .error 404 :=
  c4_missing_or_directory_404 exFS exRoot ["", "docs"] ["docs"] (by decide)
    (by decide)

/-- C5: when `index.html` exists at the root, GET / produces exactly the same
response as GET /index.html — the two handlers perform the same
`send_from_directory('.', 'index.html')` call. -/
theorem c5_root_equals_index_html (fs : FS) (cwd : List String)
    (c : List Nat) (r : Bool)
    (hf : fs.entry (cwd ++ ["index.html"]) = .file c r) :
    (appDispatch fs cwd .get ["", ""]).1
      = (appDispatch fs cwd .get ["", "index.html"]).1 := by
  rfl

/-- C5 witness: the two URLs agree on a concrete filesystem with an index. -/
theorem c5_witness :
    (appDispatch exFS exRoot .get ["", ""]).1
      = (appDispatch exFS exRoot .get ["", "index.html"]).1 :=
  c5_root_equals_index_html exFS exRoot [104, 105] true (by decide)

/-- C6: every 200 response to a GET carries the content type guessed from the
extension of the served file's basename, with the generic binary type as the
fallback whenever the extension is unrecognised. -/
theorem c6_content_type_from_extension (fs : FS) (cwd url : List String)
    (b : List Nat) (ct : String)
    (hok : (appDispatch fs cwd .get url).1 = .ok b ct) :
    ∃ j, requestTarget url = some j ∧ ct = mimetypeFor (basenameSegs j) ∧
      (guess_type (basenameSegs j) = none →
        ct = "application/octet-stream") := by
  rcases hm : matchRoute url with _ | p | _ | _
  · rw [appDispatch_toIndex fs cwd .get hm, if_neg (by decide),
      if_neg (by decide)] at hok
    have habs : (["index.html"] : List String).head? ≠ some "" := by decide
    have hne : (["index.html"] : List String) ≠ [""] := by decide
    have hesc : escapes 0 ["index.html"] = false := by decide
    rw [serve_file_resolved fs cwd ["index.html"] habs hne hesc] at hok
    have hrt : requestTarget url = some (resolvedJoin ["index.html"]) := by
      unfold requestTarget
      rw [hm]
      decide
    rcases hE : fs.entry (cwd ++ (normRel ["index.html"] 0 []).2)
      with ⟨c, r⟩ | _ | _ <;> rw [hE] at hok
    · rcases r with _ | _
      · simp [stripBodyForHead] at hok
      · have hok2 : Response.ok c
            (mimetypeFor (basenameSegs (resolvedJoin ["index.html"])))
            = .ok b ct := hok
        injection hok2 with h1 h2
        exact ⟨resolvedJoin ["index.html"], hrt, h2.symm,
          fun hnone => h2.symm.trans (mimetypeFor_none hnone)⟩
    · simp [stripBodyForHead] at hok
    · simp [stripBodyForHead] at hok
  · rw [appDispatch_toServe fs cwd .get hm, if_neg (by decide),
      if_neg (by decide)] at hok
    obtain ⟨-, -, hne, habs⟩ := matchRoute_toServe_inv hm
    cases hesc : escapes 0 p
    · obtain ⟨hj, hclean, hres⟩ := safe_join_dot_some p habs hne hesc
      have hrt : requestTarget url = some (resolvedJoin p) := by
        unfold requestTarget
        rw [hm]
        exact hj
      rw [serve_file_resolved fs cwd p habs hne hesc] at hok
      rcases hE : fs.entry (cwd ++ (normRel p 0 []).2)
        with ⟨c, r⟩ | _ | _ <;> rw [hE] at hok
      · rcases r with _ | _
        · simp [stripBodyForHead] at hok
        · have hok2 : Response.ok c
              (mimetypeFor (basenameSegs (resolvedJoin p))) = .ok b ct := hok
          injection hok2 with h1 h2
          exact ⟨resolvedJoin p, hrt, h2.symm,
            fun hnone => h2.symm.trans (mimetypeFor_none hnone)⟩
      · simp [stripBodyForHead] at hok
      · simp [stripBodyForHead] at hok
    · rw [serve_file_escapes fs cwd p habs hne hesc] at hok
      simp [stripBodyForHead] at hok
  · rw [appDispatch_slashRedirect fs cwd .get hm] at hok
    simp at hok
  · rw [appDispatch_noMatch fs cwd .get hm] at hok
    simp at hok

/-- C6 witness: a file with an unrecognised extension is served with the
generic binary content type, computed from its basename. -/
theorem c6_witness :
    ∃ j, requestTarget ["", "data.xyz"] = some j ∧
      "application/octet-stream" = mimetypeFor (basenameSegs j) ∧
      (guess_type (basenameSegs j) = none →
        "application/octet-stream" = "application/octet-stream") :=
  c6_content_type_from_extension exFS exRoot ["", "data.xyz"] [1, 2, 3]
    "application/octet-stream" (by decide)

/-- C7: a GET whose resolved target is a regular file that is not readable is
answered with 500 Internal Server Error, on the wildcard route and on the
index route alike. -/
theorem c7_unreadable_500 (fs : FS) (cwd : List String) :
    (∀ url p j c, matchRoute url = .toServe p → safe_join ["."] p = some j →
      fs.entry (osResolve cwd j) = .file c false →
      (appDispatch fs cwd .get url).1 = .error 500) ∧
    (∀ c, fs.entry (cwd ++ ["index.html"]) = .file c false →
      (appDispatch fs cwd .get ["", ""]).1 = .error 500) := by
  constructor
  · intro url p j c hm hj hf
    obtain ⟨-, -, hne, habs⟩ := matchRoute_toServe_inv hm
    cases hesc : escapes 0 p
    · obtain ⟨hj2, hclean, hres⟩ := safe_join_dot_some p habs hne hesc
      rw [hj2] at hj
      injection hj with hj3
      subst hj3
      rw [hres cwd] at hf
      rw [appDispatch_toServe fs cwd .get hm, if_neg (by decide),
        if_neg (by decide), serve_file_resolved fs cwd p habs hne hesc, hf]
      rfl
    · rw [safe_join_dot_none p habs hne hesc] at hj
      cases hj
  · intro c hf
    have hm : matchRoute ["", ""] = .toIndex := by decide
    have habs : (["index.html"] : List String).head? ≠ some "" := by decide
    have hne : (["index.html"] : List String) ≠ [""] := by decide
    have hesc : escapes 0 ["index.html"] = false := by decide
    have hrel2 : (normRel ["index.html"] 0 []).2 = ["index.html"] := by decide
    rw [appDispatch_toIndex fs cwd .get hm, if_neg (by decide),
      if_neg (by decide),
      serve_file_resolved fs cwd ["index.html"] habs hne hesc, hrel2, hf]
    rfl

/-- C7 witness: the unreadable file of the concrete filesystem yields 500. -/
theorem c7_witness :
    (appDispatch exFS exRoot .get ["", "locked.bin"]).1 = .error 500 :=
  (c7_unreadable_500 exFS exRoot).1 ["", "locked.bin"] ["locked.bin"]
    [".", "locked.bin"] [9, 9] (by decide) (by decide) (by decide)

theorem stripBody_ok_inv {m : Method} {r : Response} {b : List Nat}
    {ct : String} (hget : m ≠ .get) (hall : allowedMethods m = true)
    (hopt : m ≠ .options) (h : stripBodyForHead m r = .ok b ct) : b = [] := by
  have hh : m = .head := by
    cases m
    · exact absurd rfl hget
    · rfl
    · exact absurd rfl hopt
    all_goals exact absurd hall (by decide)
  subst hh
  rcases r with ⟨bb, cc⟩ | s
  · have h2 : Response.ok [] cc = .ok b ct := h
    injection h2 with h3 h4
    exact h3.symm
  · have h2 : Response.error s = .ok b ct := h
    exact Response.noConfusion h2

/-- C8 (amended): a request with a method outside GET, HEAD and OPTIONS to a
URL matching either route receives 405 Method Not Allowed; HEAD and OPTIONS
are handled automatically, and no response to a non-GET request ever carries
file contents in its body (any 200 body is empty). -/
theorem c8_method_handling (fs : FS) (cwd : List String) (m : Method)
    (url : List String) :
    (allowedMethods m = false →
      (matchRoute url = .toIndex ∨ ∃ p, matchRoute url = .toServe p) →
      (appDispatch fs cwd m url).1 = .error 405) ∧
    (m ≠ .get → ∀ b ct, (appDispatch fs cwd m url).1 = .ok b ct → b = []) := by
  constructor
  · intro hall hmatch
    rcases hmatch with hm | ⟨p, hm⟩
    · rw [appDispatch_toIndex fs cwd m hm, if_pos hall]
    · rw [appDispatch_toServe fs cwd m hm, if_pos hall]
  · intro hget b ct hok
    rcases hm : matchRoute url with _ | p | _ | _
    · rw [appDispatch_toIndex fs cwd m hm] at hok
      by_cases hall : allowedMethods m = false
      · rw [if_pos hall] at hok
        exact Response.noConfusion (show Response.error 405 = .ok b ct from hok)
      · rw [if_neg hall] at hok
        by_cases hopt : m = .options
        · rw [if_pos hopt] at hok
          have hok2 : Response.ok [] "text/html; charset=utf-8" = .ok b ct := hok
          injection hok2 with h1 h2
          exact h1.symm
        · rw [if_neg hopt] at hok
          have hall2 : allowedMethods m = true := by
            cases hA : allowedMethods m
            · exact absurd hA hall
            · rfl
          exact stripBody_ok_inv hget hall2 hopt
            (show stripBodyForHead m (serve_file fs cwd ["index.html"]).1
              = .ok b ct from hok)
    · rw [appDispatch_toServe fs cwd m hm] at hok
      by_cases hall : allowedMethods m = false
      · rw [if_pos hall] at hok
        exact Response.noConfusion (show Response.error 405 = .ok b ct from hok)
      · rw [if_neg hall] at hok
        by_cases hopt : m = .options
        · rw [if_pos hopt] at hok
          have hok2 : Response.ok [] "text/html; charset=utf-8" = .ok b ct := hok
          injection hok2 with h1 h2
          exact h1.symm
        · rw [if_neg hopt] at hok
          have hall2 : allowedMethods m = true := by
            cases hA : allowedMethods m
            · exact absurd hA hall
            · rfl
          exact stripBody_ok_inv hget hall2 hopt
            (show stripBodyForHead m (serve_file fs cwd p).1
              = .ok b ct from hok)
    · rw [appDispatch_slashRedirect fs cwd m hm] at hok
      exact Response.noConfusion (show Response.error 308 = .ok b ct from hok)
    · rw [appDispatch_noMatch fs cwd m hm] at hok
      exact Response.noConfusion (show Response.error 404 = .ok b ct from hok)

/-- C8 counterexample to the claim as stated: a HEAD request (a method other
than GET) to `/` receives status 200, not 405, because Flask adds automatic
HEAD handling to GET routes. -/
theorem c8_counterexample_head :
    ((appDispatch exFS exRoot .head ["", ""]).1).status = 200 ∧
    (200 : Nat) ≠ 405 := by
  decide

/-- C8 witness: a POST to `/` is refused with 405. -/
theorem c8_witness :
    (appDispatch exFS exRoot .post ["", ""]).1 = .error 405 :=
  (c8_method_handling exFS exRoot .post ["", ""]).1 (by decide)
    (Or.inl (by decide))

/-- C9: handling a request performs no write effect, and sequential handling
of any request list leaves the application state unchanged and gives every
request the same response it would receive in isolation. -/
theorem c9_reads_only_no_state_change (st : AppState) (fs : FS)
    (cwd : List String) (m : Method) (url : List String)
    (reqs : List (Method × List String)) :
    ((appHandle st fs cwd m url).2.all (fun e => !e.isWrite) = true) ∧
    ((handleRequests st fs cwd reqs).2 = st) ∧
    ((handleRequests st fs cwd reqs).1
      = reqs.map (fun r => (appHandle st fs cwd r.1 r.2).1)) := by
  refine ⟨?_, ?_, ?_⟩
  · rw [List.all_eq_true]
    intro e he
    rw [(appDispatch_effects fs cwd m url e he).1]
    rfl
  · induction reqs with
    | nil => rfl
    | cons r rs ih =>
      obtain ⟨rm, ru⟩ := r
      simp [handleRequests, ih]
  · induction reqs with
    | nil => rfl
    | cons r rs ih =>
      obtain ⟨rm, ru⟩ := r
      simp [handleRequests, ih]

/-- C10: the secret key is read once at startup from the `SESSION_SECRET`
environment variable, defaulting to the hardcoded value when absent, and no
response depends on it: two application states built from arbitrary
environments handle every request identically. -/
theorem c10_secret_independent (env1 env2 : String → Option String)
    (s : String) (fs : FS) (cwd : List String) (m : Method)
    (url : List String) :
    appHandle (mkApp env1) fs cwd m url = appHandle (mkApp env2) fs cwd m url ∧
    (env1 "SESSION_SECRET" = none → (mkApp env1).secret_key = defaultSecret) ∧
    (env1 "SESSION_SECRET" = some s → (mkApp env1).secret_key = s) := by
  refine ⟨rfl, ?_, ?_⟩
  · intro h
    simp [mkApp, startupSecretKey, h]
  · intro h
    simp [mkApp, startupSecretKey, h]

/-- C10 witness: an empty environment yields the hardcoded default secret, a
populated one yields its value, and the two applications answer a concrete
request identically. -/
theorem c10_witness :
    appHandle (mkApp envEmpty) exFS exRoot .get ["", ""]
        = appHandle (mkApp envWithSecret) exFS exRoot .get ["", ""] ∧
    (mkApp envEmpty).secret_key = defaultSecret ∧
    (mkApp envWithSecret).secret_key = "s3cret" :=
  ⟨(c10_secret_independent envEmpty envWithSecret "s3cret" exFS exRoot .get
      ["", ""]).1,
   (c10_secret_independent envEmpty envWithSecret "s3cret" exFS exRoot .get
      ["", ""]).2.1 rfl,
   (c10_secret_independent envWithSecret envEmpty "s3cret" exFS exRoot .get
      ["", ""]).2.2 (by decide)⟩

end StaticApp
